import Mathlib

/-!
Verification of the enterprise-cli repository (Go) against its specification.

The Go sources are shallowly embedded: each relevant Go function is translated
into an executable Lean definition over explicit data (strings are handled as
their character lists so that every definition reduces in the kernel; machine
integers appear as `Nat` with explicit bounds; fallible steps take their
outcome from an explicit environment record and return `Except`/`Option`).
-/

namespace EnterpriseCli

/-- Model of a Go `error` value: `tag` is an opaque error coming back from an
external call (exec / gh / os), `msgErr` models `fmt.Errorf` with a plain
message, and `wrapped` models `fmt.Errorf("...: %w", err)`. -/
inductive GoErr where
  | tag (n : Nat)
  | msgErr (s : String)
  | wrapped (s : String) (inner : GoErr)
  deriving DecidableEq

/-- A single-quote character, built numerically so the embedding can spell the
git output messages (for example `Already on 'main'`) that the Go code
pattern-matches on. -/
def squot : String := String.mk [Char.ofNat 39]

/-- Split a character list at every occurrence of `sep`, keeping empty pieces:
the semantics of Go `strings.Split(s, sep)` for a one-character separator. -/
def splitOnChar (sep : Char) : List Char → List (List Char)
  | [] => [[]]
  | c :: cs =>
    if c = sep then [] :: splitOnChar sep cs
    else
      match splitOnChar sep cs with
      | [] => [[c]]
      | p :: ps => (c :: p) :: ps

/-- Go `strings.Split(s, "-")`. -/
def goSplitDash (s : String) : List String :=
  (splitOnChar '-' s.data).map String.mk

/-- Substring test on character lists: true when `sub` occurs contiguously in
`s`, the semantics of Go `strings.Contains`. -/
def containsList (s sub : List Char) : Bool :=
  if sub.isPrefixOf s then true
  else
    match s with
    | [] => false
    | _ :: t => containsList t sub

/-- Go `strings.Contains(s, sub)`. -/
def goContains (s sub : String) : Bool := containsList s.data sub.data

/-- Numeric value of a list of decimal digit characters. -/
def digitsToNat (ds : List Char) : Nat :=
  ds.foldl (fun a c => a * 10 + (c.toNat - 48)) 0

/-- Digit-and-range step of `strconv.ParseInt`: the (sign, digits) pair must
have at least one digit, all decimal, and the magnitude must fit a signed
64-bit integer. -/
def parseSigned (neg : Bool) (ds : List Char) : Option Int :=
  if ds = [] then none
  else if ds.all Char.isDigit then
    if neg then
      if digitsToNat ds ≤ 2 ^ 63 then some (-(digitsToNat ds : Int)) else none
    else
      if digitsToNat ds ≤ 2 ^ 63 - 1 then some ((digitsToNat ds : Int)) else none
  else none

/-- Boolean acceptance of `parseSigned`, used to word the amended claim. -/
def parseSignedOk (neg : Bool) (ds : List Char) : Bool :=
  if ds = [] then false
  else if ds.all Char.isDigit then
    if neg then decide (digitsToNat ds ≤ 2 ^ 63) else decide (digitsToNat ds ≤ 2 ^ 63 - 1)
  else false

/-- Sign handling of `strconv.ParseInt`: strip one optional `+` or `-`. -/
def stripSign (d : List Char) : Bool × List Char :=
  match d with
  | [] => (false, [])
  | c :: cs => if c = '+' then (false, cs) else if c = '-' then (true, cs) else (false, c :: cs)

/-- Go `strconv.ParseInt(s, 10, 64)` (src/pkg/github/branch.go:196): an
optional sign followed by at least one decimal digit, rejected when the value
does not fit a signed 64-bit integer. -/
def goParseInt64 (s : String) : Option Int :=
  match s.data with
  | [] => none
  | c :: cs => parseSigned (stripSign (c :: cs)).1 (stripSign (c :: cs)).2

/-- Embedding of `containsTimestamp` (src/pkg/github/branch.go:183-198): split
on `-`; at least two parts, last part at least 8 characters long, and
`strconv.ParseInt` accepts it. -/
def containsTimestamp (branchName : String) : Bool :=
  if (goSplitDash branchName).length ≤ 1 then false
  else if ((goSplitDash branchName).getLast?.getD "").length < 8 then false
  else (goParseInt64 ((goSplitDash branchName).getLast?.getD "")).isSome

/-- Final branch name computed by `CreateBranch`
(src/pkg/github/branch.go:24-29): the requested name, with `-<unix time>`
appended unless `containsTimestamp` accepts the requested name. -/
def finalBranchName (branchName : String) (nowUnix : Nat) : String :=
  if containsTimestamp branchName then branchName
  else branchName ++ "-" ++ toString nowUnix

/-- The heuristic exactly as claim C2 words it: the name ends in a
hyphen-separated final segment that is a run of at least 8 decimal digits. -/
def claimedDigitRun (name : String) : Bool :=
  decide ((goSplitDash name).length > 1) &&
    (decide (((goSplitDash name).getLast?.getD "").length ≥ 8) &&
      ((goSplitDash name).getLast?.getD "").data.all Char.isDigit)

/-- The amended heuristic: the final hyphen-separated segment is at least 8
characters long and is an optionally signed run of decimal digits whose value
fits in a signed 64-bit integer. -/
def signedInt64DigitRun (s : String) : Bool :=
  match s.data with
  | [] => false
  | c :: cs => parseSignedOk (stripSign (c :: cs)).1 (stripSign (c :: cs)).2

/-- Amended form of the spec heuristic over whole branch names. -/
def amendedTimestampHeuristic (name : String) : Bool :=
  decide ((goSplitDash name).length > 1) &&
    (decide (((goSplitDash name).getLast?.getD "").length ≥ 8) &&
      signedInt64DigitRun ((goSplitDash name).getLast?.getD ""))

lemma isSome_ite {α : Type} {P : Prop} [Decidable P] (x : α) :
    (if P then some x else none).isSome = decide P := by
  split <;> simp [*]

lemma parseSigned_isSome (neg : Bool) (ds : List Char) :
    (parseSigned neg ds).isSome = parseSignedOk neg ds := by
  unfold parseSigned parseSignedOk
  split
  · rfl
  · split
    · cases neg <;> simp [isSome_ite]
    · rfl

lemma goParseInt64_isSome (s : String) :
    (goParseInt64 s).isSome = signedInt64DigitRun s := by
  unfold goParseInt64 signedInt64DigitRun
  rcases s with ⟨d⟩
  cases d with
  | nil => rfl
  | cons c cs => exact parseSigned_isSome _ _

lemma containsTimestamp_eq_amended (name : String) :
    containsTimestamp name = amendedTimestampHeuristic name := by
  unfold containsTimestamp amendedTimestampHeuristic
  generalize goSplitDash name = ps
  by_cases h1 : ps.length ≤ 1
  · simp [h1, show ¬ ps.length > 1 by omega]
  · by_cases h8 : (ps.getLast?.getD "").length < 8
    · simp [h1, h8, show ps.length > 1 by omega,
        show ¬ 8 ≤ (ps.getLast?.getD "").length by omega]
    · simp [h1, h8, show ps.length > 1 by omega,
        show 8 ≤ (ps.getLast?.getD "").length by omega, goParseInt64_isSome]

/-! Model of `CreateBranch` (src/pkg/github/branch.go:23-106). Each external
`git` invocation's outcome (error and combined output) is supplied by an
environment record; the model mirrors the Go control flow and records which
steps were attempted. -/

/-- Outcome of one external command: `err = none` models a zero exit status,
`output` the combined stdout+stderr text. -/
structure CmdResult where
  err : Option GoErr
  output : String
  deriving DecidableEq

/-- Embedding of `BranchOptions` (src/pkg/github/branch.go:13-18). -/
structure BranchOptions where
  path : String
  branchName : String
  baseBranch : String
  skipPull : Bool
  deriving DecidableEq

/-- Outcomes of the four git commands `CreateBranch` can run, in order:
checkout of the base branch, pull, `checkout -b`, plain checkout fallback. -/
structure GitBranchEnv where
  checkoutBase : CmdResult
  pull : CmdResult
  createBranchCmd : CmdResult
  switchCmd : CmdResult
  deriving DecidableEq

/-- Which steps of `CreateBranch` ran, and whether the base-branch checkout
produced the warning log. -/
structure CreateBranchTrace where
  warnedBaseCheckout : Bool
  pullAttempted : Bool
  createAttempted : Bool
  switchAttempted : Bool
  deriving DecidableEq

/-- Steps 3-5 of `CreateBranch` (src/pkg/github/branch.go:65-105): try
`checkout -b`; on the branch-already-exists message fall back to a plain
checkout, whose output can also signal success despite a non-zero exit. -/
def createBranchCreatePhase (finalName : String) (env : GitBranchEnv)
    (warned pulled : Bool) : Except GoErr String × CreateBranchTrace :=
  match env.createBranchCmd.err with
  | none => (.ok finalName, ⟨warned, pulled, true, false⟩)
  | some ce =>
    if goContains env.createBranchCmd.output
        ("fatal: A branch named " ++ squot ++ finalName ++ squot ++ " already exists.") ||
       goContains env.createBranchCmd.output
        ("fatal: branch " ++ squot ++ finalName ++ squot ++ " already exists.") then
      match env.switchCmd.err with
      | none => (.ok finalName, ⟨warned, pulled, true, true⟩)
      | some se =>
        if goContains env.switchCmd.output ("Already on " ++ squot ++ finalName ++ squot) ||
           goContains env.switchCmd.output ("Switched to branch " ++ squot ++ finalName ++ squot) then
          (.ok finalName, ⟨warned, pulled, true, true⟩)
        else
          (.error (.wrapped ("branch " ++ squot ++ finalName ++ squot ++
            " exists but could not be checked out") se), ⟨warned, pulled, true, true⟩)
    else
      (.error (.wrapped ("failed to create branch " ++ squot ++ finalName ++ squot) ce),
        ⟨warned, pulled, true, false⟩)

/-- Embedding of `CreateBranch` (src/pkg/github/branch.go:23-106): compute the
final name, check out the base branch (warning only on failure), optionally
pull (failure is fatal), then create or switch to the final branch. -/
def createBranchGo (opts : BranchOptions) (nowUnix : Nat) (env : GitBranchEnv) :
    Except GoErr String × CreateBranchTrace :=
  let finalName := finalBranchName opts.branchName nowUnix
  let successMsg1 :=
    goContains env.checkoutBase.output ("Already on " ++ squot ++ opts.baseBranch ++ squot) ||
    goContains env.checkoutBase.output ("Switched to branch " ++ squot ++ opts.baseBranch ++ squot) ||
    goContains env.checkoutBase.output
      ("Switched to a new branch " ++ squot ++ opts.baseBranch ++ squot)
  let warned := env.checkoutBase.err.isSome && !successMsg1
  if opts.skipPull then createBranchCreatePhase finalName env warned false
  else
    match env.pull.err with
    | some e =>
      (.error (.wrapped ("failed to pull base branch " ++ opts.baseBranch) e),
        ⟨warned, true, false, false⟩)
    | none => createBranchCreatePhase finalName env warned true

lemma createPhase_fst_indep (finalName : String) (env : GitBranchEnv)
    (w w' p : Bool) :
    (createBranchCreatePhase finalName env w p).1 =
      (createBranchCreatePhase finalName env w' p).1 := by
  unfold createBranchCreatePhase
  split <;> (try rfl) <;> split <;> (try rfl) <;> split <;> (try rfl) <;> split <;> rfl

lemma createPhase_pullAttempted (finalName : String) (env : GitBranchEnv) (w p : Bool) :
    (createBranchCreatePhase finalName env w p).2.pullAttempted = p := by
  unfold createBranchCreatePhase
  split <;> (try rfl) <;> split <;> (try rfl) <;> split <;> (try rfl) <;> split <;> rfl

lemma createPhase_createAttempted (finalName : String) (env : GitBranchEnv) (w p : Bool) :
    (createBranchCreatePhase finalName env w p).2.createAttempted = true := by
  unfold createBranchCreatePhase
  split <;> (try rfl) <;> split <;> (try rfl) <;> split <;> (try rfl) <;> split <;> rfl

/-- C2 counterexample: the claim says every branch name ending in a
hyphen-separated run of at least 8 decimal digits is left unchanged, but a
20-digit run overflows `strconv.ParseInt`-with-64-bits, so `CreateBranch`
appends a timestamp suffix to it. -/
theorem C2_claim_counterexample :
    claimedDigitRun "release-99999999999999999999" = true ∧
    finalBranchName "release-99999999999999999999" 1700000000 ≠
      "release-99999999999999999999" := by
  constructor
  · decide
  · have hct : containsTimestamp "release-99999999999999999999" = false := by decide
    unfold finalBranchName
    rw [hct]
    simp only [Bool.false_eq_true, if_false]
    intro h
    have hlen := congrArg String.length h
    rw [String.length_append, String.length_append] at hlen
    have hone : ("-" : String).length = 1 := by decide
    omega

/-- C2 (amended): the final branch name equals the requested name exactly when
the requested name's final hyphen-separated segment is at least 8 characters
long and is an optionally signed run of decimal digits whose value fits in a
signed 64-bit integer; every other requested name receives a
`-<unix-timestamp>` suffix. -/
theorem C2_amended_final_branch_name (name : String) (nowUnix : Nat) :
    finalBranchName name nowUnix =
      (if amendedTimestampHeuristic name then name
       else name ++ "-" ++ toString nowUnix) := by
  unfold finalBranchName
  rw [containsTimestamp_eq_amended]

/-- C10: `CreateBranch` never fails because the initial checkout of the base
branch failed: the returned value is unchanged under any outcome of that
checkout, the pull step runs exactly when not skipped, and whenever the pull
step does not fail the branch-creation step is attempted. -/
theorem C10_base_checkout_failure_never_fatal
    (opts : BranchOptions) (nowUnix : Nat) (env : GitBranchEnv) (r rAlt : CmdResult) :
    ((createBranchGo opts nowUnix { env with checkoutBase := r }).1 =
      (createBranchGo opts nowUnix { env with checkoutBase := rAlt }).1) ∧
    ((createBranchGo opts nowUnix { env with checkoutBase := r }).2.pullAttempted =
      !opts.skipPull) ∧
    (opts.skipPull = true ∨ env.pull.err = none →
      (createBranchGo opts nowUnix { env with checkoutBase := r }).2.createAttempted = true) := by
  refine ⟨?_, ?_, ?_⟩
  · unfold createBranchGo
    cases hsp : opts.skipPull
    · simp only [Bool.false_eq_true, if_false]
      cases hp : env.pull.err with
      | none => exact createPhase_fst_indep _ _ _ _ _
      | some e => rfl
    · simp only [if_true]
      exact createPhase_fst_indep _ _ _ _ _
  · unfold createBranchGo
    cases hsp : opts.skipPull
    · simp only [Bool.false_eq_true, if_false, Bool.not_false]
      cases hp : env.pull.err with
      | none => exact createPhase_pullAttempted _ _ _ _
      | some e => rfl
    · simp only [if_true, Bool.not_true]
      exact createPhase_pullAttempted _ _ _ _
  · intro h
    unfold createBranchGo
    cases hsp : opts.skipPull
    · simp only [Bool.false_eq_true, if_false]
      rcases h with h | h
      · rw [hsp] at h; cases h
      · simp only [h]
        exact createPhase_createAttempted _ _ _ _
    · simp only [if_true]
      exact createPhase_createAttempted _ _ _ _

/-- Closed instantiation of `C10_base_checkout_failure_never_fatal` at a
concrete failing base-branch checkout. -/
theorem C10_witness :
    ((createBranchGo ⟨".", "release-20231231235900", "main", true⟩ 1700000000
        { checkoutBase := ⟨some (.tag 7), "error: pathspec"⟩,
          pull := ⟨none, ""⟩,
          createBranchCmd := ⟨none, ""⟩,
          switchCmd := ⟨none, ""⟩ }).1 =
      (createBranchGo ⟨".", "release-20231231235900", "main", true⟩ 1700000000
        { checkoutBase := ⟨none, ""⟩,
          pull := ⟨none, ""⟩,
          createBranchCmd := ⟨none, ""⟩,
          switchCmd := ⟨none, ""⟩ }).1) ∧
    ((createBranchGo ⟨".", "release-20231231235900", "main", true⟩ 1700000000
        { checkoutBase := ⟨some (.tag 7), "error: pathspec"⟩,
          pull := ⟨none, ""⟩,
          createBranchCmd := ⟨none, ""⟩,
          switchCmd := ⟨none, ""⟩ }).2.createAttempted = true) := by
  have h := C10_base_checkout_failure_never_fatal
    ⟨".", "release-20231231235900", "main", true⟩ 1700000000
    { checkoutBase := ⟨none, ""⟩,
      pull := ⟨none, ""⟩,
      createBranchCmd := ⟨none, ""⟩,
      switchCmd := ⟨none, ""⟩ }
    ⟨some (.tag 7), "error: pathspec"⟩ ⟨none, ""⟩
  exact ⟨h.1, h.2.2 (Or.inl rfl)⟩

/-! Model of the filesystem path helpers (src/pkg/utils/filesystem/delete.go
and the move helper). A cleaned absolute path (the output of
`filepath.Clean(filepath.Abs(...))`) is represented by its list of path
components; `filepath.Rel` on two such paths strips the common leading
components and prepends one `..` per remaining base component, yielding `.`
when nothing remains (the Go standard library's lexical behaviour). The
`strings.HasPrefix(rel, "..")` test is then taken on the `/`-joined
character list of that relative path, exactly as the Go code does on the
relative string. -/

/-- Strip the longest common leading run of components from both lists. -/
def dropCommonRoot : List String → List String → List String × List String
  | a :: as, b :: bs =>
    if a = b then dropCommonRoot as bs else (a :: as, b :: bs)
  | as, bs => (as, bs)

/-- Components of `filepath.Rel(base, targ)` for cleaned absolute paths: one
`..` per base component left after removing the common root, then the
remaining target components. -/
def relSegments (base targ : List String) : List String :=
  List.replicate (dropCommonRoot base targ).1.length ".." ++ (dropCommonRoot base targ).2

/-- Character list of the `filepath.Rel` result: components joined by `/`,
or `.` when the paths are equal. -/
def joinSlash : List String → List Char
  | [] => []
  | [c] => c.data
  | c :: rest => c.data ++ '/' :: joinSlash rest

/-- The relative-path string (as characters) returned by `filepath.Rel`. -/
def relChars (base targ : List String) : List Char :=
  match relSegments base targ with
  | [] => ['.']
  | s => joinSlash s

/-- Result of `SafelyDeleteDir`: refused because the target is the working
directory itself, refused because the relative path starts with `..`, or the
subtree was removed. -/
inductive DeleteOutcome where
  | errCwdItself
  | errOutside
  | removedSubtree
  deriving DecidableEq

/-- Embedding of `SafelyDeleteDir` (src/pkg/utils/filesystem/delete.go:12-46)
on cleaned absolute paths: equality with the working directory is an error, a
relative path starting with the two characters `..` is an error, and
otherwise `os.RemoveAll` removes the subtree. -/
def safelyDeleteDir (cwd absPath : List String) : DeleteOutcome :=
  if absPath = cwd then .errCwdItself
  else if List.isPrefixOf ['.', '.'] (relChars cwd absPath) then .errOutside
  else .removedSubtree

lemma dropCommonRoot_append (base r : List String) :
    dropCommonRoot base (base ++ r) = ([], r) := by
  induction base with
  | nil =>
    cases r <;> rfl
  | cons a as ih =>
    simpa [dropCommonRoot] using ih

lemma dropCommonRoot_fst_ne_nil (base targ : List String) (h : ¬ base <+: targ) :
    (dropCommonRoot base targ).1 ≠ [] := by
  induction base generalizing targ with
  | nil => exact absurd (List.nil_prefix) h
  | cons a as ih =>
    cases targ with
    | nil => simp [dropCommonRoot]
    | cons b bs =>
      by_cases hab : a = b
      · subst hab
        have : ¬ as <+: bs := by
          intro hp
          exact h (by simpa using (List.prefix_cons_inj a).mpr hp)
        simpa [dropCommonRoot] using ih bs this
      · simp [dropCommonRoot, hab]

lemma relSegments_append (base : List String) (c : String) (rest : List String) :
    relSegments base (base ++ c :: rest) = c :: rest := by
  simp [relSegments, dropCommonRoot_append]

lemma relSegments_self (base : List String) :
    relSegments base base = [] := by
  have := dropCommonRoot_append base []
  simp only [List.append_nil] at this
  simp [relSegments, this]

lemma dotdot_isPrefixOf_joinSlash (c : String) (rest : List String) :
    List.isPrefixOf ['.', '.'] (joinSlash (c :: rest)) =
      List.isPrefixOf ['.', '.'] c.data := by
  cases rest with
  | nil => rfl
  | cons r rs =>
    show List.isPrefixOf ['.', '.'] (c.data ++ '/' :: joinSlash (r :: rs)) = _
    rcases c with ⟨d⟩
    match d with
    | [] => simp [List.isPrefixOf]
    | [a] =>
      simp only [List.cons_append, List.nil_append, List.isPrefixOf]
      cases ha : (a == '.') <;> simp [ha]
    | a :: b :: t =>
      simp [List.isPrefixOf]

lemma relChars_outside (cwd p : List String) (h : ¬ cwd <+: p) :
    List.isPrefixOf ['.', '.'] (relChars cwd p) = true := by
  have hne := dropCommonRoot_fst_ne_nil cwd p h
  rcases hk : (dropCommonRoot cwd p).1 with _ | ⟨x, xs⟩
  · exact absurd hk hne
  · have hseg : relSegments cwd p =
        ".." :: (List.replicate xs.length ".." ++ (dropCommonRoot cwd p).2) := by
      simp [relSegments, hk, List.replicate_succ]
    rw [relChars, hseg]
    rw [dotdot_isPrefixOf_joinSlash]
    rfl

/-- C3 counterexample: a directory strictly inside the working directory whose
name literally begins with the two characters `..` (here `cwd/..d`) is refused
by `SafelyDeleteDir`, although the claim promises removal for every path
strictly inside the working directory's subtree. -/
theorem C3_claim_counterexample :
    (["home"] : List String) <+: ["home", "..d"] ∧
    (["home", "..d"] : List String) ≠ ["home"] ∧
    safelyDeleteDir ["home"] ["home", "..d"] ≠ .removedSubtree := by
  refine ⟨⟨["..d"], rfl⟩, by decide, by decide⟩

/-- C3 (amended): `SafelyDeleteDir` errors on the working directory itself and
on every path outside its subtree; for a path strictly inside, it removes the
subtree unless the first component below the working directory itself starts
with the two characters `..`, in which case the string-prefix containment
check conservatively refuses it. -/
theorem C3_amended_safely_delete (cwd p : List String) :
    (p = cwd → safelyDeleteDir cwd p = .errCwdItself) ∧
    (¬ cwd <+: p → safelyDeleteDir cwd p = .errOutside) ∧
    (∀ c rest, p = cwd ++ c :: rest →
      (List.isPrefixOf ['.', '.'] c.data = true → safelyDeleteDir cwd p = .errOutside) ∧
      (List.isPrefixOf ['.', '.'] c.data = false →
        safelyDeleteDir cwd p = .removedSubtree)) := by
  refine ⟨?_, ?_, ?_⟩
  · intro h
    simp [safelyDeleteDir, h]
  · intro h
    have hne : p ≠ cwd := by
      intro he
      exact h (he ▸ List.prefix_refl cwd)
    simp [safelyDeleteDir, hne, relChars_outside cwd p h]
  · intro c rest hp
    have hne : p ≠ cwd := by
      intro he
      have := congrArg List.length (he ▸ hp)
      simp at this
    have hchars : relChars cwd p = joinSlash (c :: rest) := by
      rw [hp, relChars, relSegments_append]
    constructor
    · intro hdd
      have : List.isPrefixOf ['.', '.'] (relChars cwd p) = true := by
        rw [hchars, dotdot_isPrefixOf_joinSlash, hdd]
      simp [safelyDeleteDir, hne, this]
    · intro hdd
      have : List.isPrefixOf ['.', '.'] (relChars cwd p) = false := by
        rw [hchars, dotdot_isPrefixOf_joinSlash, hdd]
      simp [safelyDeleteDir, hne, this]

/-- Closed instantiation of `C3_amended_safely_delete`: the working directory
itself is refused, an outside path is refused, and a plain subdirectory is
removed. -/
theorem C3_amended_witness :
    safelyDeleteDir ["home", "user"] ["home", "user"] = .errCwdItself ∧
    safelyDeleteDir ["home", "user"] ["etc"] = .errOutside ∧
    safelyDeleteDir ["home", "user"] ["home", "user", "tmp"] = .removedSubtree := by
  refine ⟨?_, ?_, ?_⟩
  · exact (C3_amended_safely_delete ["home", "user"] ["home", "user"]).1 rfl
  · exact (C3_amended_safely_delete ["home", "user"] ["etc"]).2.1 (by decide)
  · exact ((C3_amended_safely_delete ["home", "user"]
      ["home", "user", "tmp"]).2.2 "tmp" [] rfl).2 (by decide)

/-! Model of `MoveToSubDir` (move.go, src/unnamed/part_000): after the
containment guard on the target subdirectory, every directory entry of the
working directory is moved into the target unless its cleaned absolute path is
in the ignore set, which always contains the target directory itself; a
failing move triggers a best-effort rollback of the already-moved entries. -/

/-- One entry of the working directory as seen by `os.ReadDir`, with the
outcome its `moveEntry` call would have (`moveOk = false` injects a move
failure). -/
structure DirEntry where
  name : String
  isDir : Bool
  moveOk : Bool
  deriving DecidableEq

/-- Observable outcome of `MoveToSubDir`: whether an error was returned,
whether the target directory was created, which entry names remained moved at
return, which entry names had a move attempted at all, and whether the
rollback ran. -/
structure MoveOutcome where
  errored : Bool
  createdTargetDir : Bool
  finalMoved : List String
  attemptedMoves : List String
  rolledBack : Bool
  deriving DecidableEq

/-- The entry loop of `MoveToSubDir` (move.go:72-99): skip ignored paths, move
the rest, roll everything back on the first failing move. -/
def moveLoop (cwd : List String) (ignoreSet : List (List String)) :
    List DirEntry → List String → MoveOutcome
  | [], moved => ⟨false, true, moved, moved, false⟩
  | e :: es, moved =>
    if (cwd ++ [e.name]) ∈ ignoreSet then moveLoop cwd ignoreSet es moved
    else if e.moveOk then moveLoop cwd ignoreSet es (moved ++ [e.name])
    else ⟨true, true, [], moved ++ [e.name], true⟩

/-- Embedding of `MoveToSubDir` (move.go:15-102) on cleaned absolute paths:
the target must be a strict subdirectory of the working directory (relative
path neither `.` nor starting with `..`); the ignore set always contains the
target directory itself. -/
def moveToSubDir (cwd targetAbs : List String) (ignorePaths : List (List String))
    (entries : List DirEntry) : MoveOutcome :=
  if List.isPrefixOf ['.', '.'] (relChars cwd targetAbs) || relChars cwd targetAbs = ['.'] then
    ⟨true, false, [], [], false⟩
  else
    moveLoop cwd (targetAbs :: ignorePaths) entries []

lemma moveLoop_ignored_not_attempted (cwd : List String) (ignoreSet : List (List String))
    (n : String) (hn : (cwd ++ [n]) ∈ ignoreSet) :
    ∀ (es : List DirEntry) (acc : List String), n ∉ acc →
      n ∉ (moveLoop cwd ignoreSet es acc).attemptedMoves := by
  intro es
  induction es with
  | nil => intro acc hacc; simpa [moveLoop] using hacc
  | cons e es ih =>
    intro acc hacc
    unfold moveLoop
    by_cases hig : (cwd ++ [e.name]) ∈ ignoreSet
    · simpa [hig] using ih acc hacc
    · have hne : n ≠ e.name := by
        intro he
        exact hig (he ▸ hn)
      cases hmv : e.moveOk
      · simp only [hig, if_false, hmv, Bool.false_eq_true]
        simp [List.mem_append, hacc, hne]
      · simp only [hig, if_false, hmv, if_true]
        exact ih (acc ++ [e.name]) (by simp [hacc, hne])

/-- C9: the `MoveToSubDir` guard — when the target's relative path from the
working directory is `.` (the directory itself) or starts with `..` (outside),
the call errors before creating the target directory or moving anything; and
since the target directory is always in the ignore set, no entry whose
absolute path is the target is ever moved. -/
theorem C9_move_to_subdir_guard (cwd targetAbs : List String)
    (ignorePaths : List (List String)) (entries : List DirEntry) :
    ((targetAbs = cwd ∨ ¬ cwd <+: targetAbs) →
      moveToSubDir cwd targetAbs ignorePaths entries =
        ⟨true, false, [], [], false⟩) ∧
    (∀ e ∈ entries, cwd ++ [e.name] = targetAbs →
      e.name ∉ (moveToSubDir cwd targetAbs ignorePaths entries).attemptedMoves) := by
  constructor
  · intro h
    rcases h with h | h
    · have : relChars cwd targetAbs = ['.'] := by
        rw [h, relChars, relSegments_self]
      simp [moveToSubDir, this]
    · simp [moveToSubDir, relChars_outside cwd targetAbs h]
  · intro e _ hpath
    unfold moveToSubDir
    split
    · simp
    · exact moveLoop_ignored_not_attempted cwd (targetAbs :: ignorePaths) e.name
        (by simp [hpath]) entries [] (by simp)

/-- Closed instantiation of `C9_move_to_subdir_guard`: moving into the working
directory itself errors without touching anything, and the freshly created
`frontend` directory entry is never moved into itself. -/
theorem C9_witness :
    moveToSubDir ["repo"] ["repo"] [] [⟨"src", true, true⟩] =
      ⟨true, false, [], [], false⟩ ∧
    "frontend" ∉ (moveToSubDir ["repo"] ["repo", "frontend"] [["repo", ".git"]]
      [⟨"frontend", true, true⟩, ⟨"src", true, true⟩]).attemptedMoves := by
  constructor
  · exact (C9_move_to_subdir_guard ["repo"] ["repo"] [] [⟨"src", true, true⟩]).1
      (Or.inl rfl)
  · exact (C9_move_to_subdir_guard ["repo"] ["repo", "frontend"] [["repo", ".git"]]
      [⟨"frontend", true, true⟩, ⟨"src", true, true⟩]).2
      ⟨"frontend", true, true⟩ (by simp) rfl

/-! Model of the interactive-form runner (src/pkg/ui/forms.go). The inner
`huh` form and the bubbletea program are external collaborators: the inner
form's reaction to a non-quit message is summarized by whether it reaches the
completed state, and `program.Run`'s own error is an opaque library error. -/

/-- Errors `RunForm` can produce: the `ErrFormCancelled` sentinel
(src/pkg/ui/forms.go:35) or an error coming out of the form library. -/
inductive UiError where
  | formCancelled
  | teaErr (n : Nat)
  deriving DecidableEq

/-- Embedding of `FormModel` (src/pkg/ui/forms.go:37-44): the cancelled flag,
whether a cancellation callback was supplied, whether it has been invoked, and
whether the inner form has completed. -/
structure FormModelGo where
  wasCancelled : Bool
  hasCancelFn : Bool
  cancelCalled : Bool
  formCompleted : Bool
  deriving DecidableEq

/-- Messages `FormModel.Update` distinguishes: a key press (with the inner
form's completion outcome for non-quit keys), a window resize, and any other
message handed to the inner form. -/
inductive TeaMsg where
  | key (s : String) (completes : Bool)
  | windowSize
  | formMsg (completes : Bool)
  deriving DecidableEq

/-- Command returned to the event loop. -/
inductive TeaCmd where
  | quit
  | cont
  deriving DecidableEq

/-- Forwarding a message to the inner form (src/pkg/ui/forms.go:89-107): the
model records the form's new state and quits when the form completed. -/
def formAdvance (m : FormModelGo) (completes : Bool) : FormModelGo × TeaCmd :=
  if completes then ({ m with formCompleted := true }, .quit)
  else ({ m with formCompleted := false }, .cont)

/-- Embedding of `FormModel.Update` (src/pkg/ui/forms.go:70-108): `q` or
`ctrl+c` sets the cancelled flag, invokes the supplied cancellation callback
when present, and quits; a window resize is ignored; everything else goes to
the inner form. -/
def formUpdate (m : FormModelGo) (msg : TeaMsg) : FormModelGo × TeaCmd :=
  match msg with
  | .key s completes =>
    if s = "q" ∨ s = "ctrl+c" then
      ({ m with wasCancelled := true, cancelCalled := m.cancelCalled || m.hasCancelFn }, .quit)
    else formAdvance m completes
  | .windowSize => (m, .cont)
  | .formMsg completes => formAdvance m completes

/-- Embedding of `RunForm` (src/pkg/ui/forms.go:114-130): given the final
model and the library error of `program.Run`, the cancelled flag is inspected
first and converted into the sentinel; only then is the library error
returned. -/
def runFormGo (finalModel : FormModelGo) (runErr : Option Nat) : Option UiError :=
  if finalModel.wasCancelled then some .formCancelled
  else runErr.map UiError.teaErr

/-- C8: `RunForm` returns the `ErrFormCancelled` sentinel exactly when the
final model's cancelled flag is set (the flag check takes effect even when the
form library also reports an error); the sentinel is distinct from every
library error; and a quit keystroke sets the flag, invokes the supplied
cancellation callback, and quits the loop. -/
theorem C8_run_form_sentinel :
    (∀ (m : FormModelGo) (err : Option Nat),
      runFormGo m err = some .formCancelled ↔ m.wasCancelled = true) ∧
    (∀ (n : Nat), UiError.teaErr n ≠ UiError.formCancelled) ∧
    (∀ (m : FormModelGo) (err : Option Nat), m.wasCancelled = false →
      runFormGo m err = err.map UiError.teaErr) ∧
    (∀ (m : FormModelGo) (s : String) (b : Bool), s = "q" ∨ s = "ctrl+c" →
      (formUpdate m (.key s b)).1.wasCancelled = true ∧
      (m.hasCancelFn = true → (formUpdate m (.key s b)).1.cancelCalled = true) ∧
      (formUpdate m (.key s b)).2 = .quit) := by
  refine ⟨?_, ?_, ?_, ?_⟩
  · intro m err
    cases hc : m.wasCancelled
    · cases err <;> simp [runFormGo, hc]
    · simp [runFormGo, hc]
  · intro n h
    cases h
  · intro m err h
    simp [runFormGo, h]
  · intro m s b hs
    refine ⟨?_, ?_, ?_⟩ <;> simp [formUpdate, hs]
    intro hc
    simp [hc]

/-- Closed instantiation of `C8_run_form_sentinel`: a cancelled model turns a
library error into the sentinel, a non-cancelled model propagates it, and the
`q` key cancels. -/
theorem C8_witness :
    runFormGo ⟨true, true, true, false⟩ (some 3) = some .formCancelled ∧
    runFormGo ⟨false, true, false, true⟩ (some 3) = some (.teaErr 3) ∧
    (formUpdate ⟨false, true, false, false⟩ (.key "q" false)).1.wasCancelled = true ∧
    (formUpdate ⟨false, true, false, false⟩ (.key "q" false)).1.cancelCalled = true := by
  refine ⟨?_, ?_, ?_, ?_⟩
  · exact (C8_run_form_sentinel.1 ⟨true, true, true, false⟩ (some 3)).mpr rfl
  · exact C8_run_form_sentinel.2.2.1 ⟨false, true, false, true⟩ (some 3) rfl
  · exact (C8_run_form_sentinel.2.2.2 ⟨false, true, false, false⟩ "q" false (Or.inl rfl)).1
  · exact (C8_run_form_sentinel.2.2.2 ⟨false, true, false, false⟩ "q" false
      (Or.inl rfl)).2.1 rfl

/-! Model of the resource mapper (src/pkg/resources/resources.go). The
filesystem is a finite map from path strings to entries (regular file with
content, or directory); `os.MkdirAll` is modelled at the granularity of the
full destination directory path. Mapping sources are the already-resolved
cleaned paths produced by `NewResourceManager` (relative sources joined
against the mapping file's directory and cleaned). -/

/-- A filesystem entry: a regular file with its byte content, or a
directory. -/
inductive FsEntry where
  | file (content : String)
  | dir
  deriving DecidableEq

/-- A finite-map filesystem, as an association list from paths to entries. -/
structure Fs where
  entries : List (String × FsEntry)
  deriving DecidableEq

/-- Look a path up in the filesystem. -/
def Fs.lookup (fs : Fs) (p : String) : Option FsEntry :=
  (fs.entries.find? (fun q => q.1 == p)).map (fun q => q.2)

/-- Create or overwrite the entry at a path. -/
def Fs.set (fs : Fs) (p : String) (e : FsEntry) : Fs :=
  ⟨(p, e) :: fs.entries.filter (fun q => q.1 != p)⟩

/-- Embedding of `Mapping` (src/pkg/resources/resources.go:16-20), with
`source` already resolved as the loader does. -/
structure Mapping where
  legibleName : String
  source : String
  destination : String
  deriving DecidableEq

/-- Remove the first occurrence of `sub` from `s`: Go
`strings.Replace(s, sub, "", 1)` for nonempty `sub`. -/
def removeFirstSub (s sub : List Char) : List Char :=
  if sub.isPrefixOf s then s.drop sub.length
  else
    match s with
    | [] => []
    | c :: t => c :: removeFirstSub t sub

/-- The `$\x7bnext-enterprise\x7d` placeholder stripped from destinations
(src/pkg/resources/resources.go:113-114). -/
def placeholder : String := "$\x7bnext-enterprise\x7d"

/-- Relative-part computation of `normalizeDestination`
(src/pkg/resources/resources.go:111-127): strip the placeholder (first with a
trailing slash, then bare), defaulting an empty result to `.`. -/
def normalizeDestRel (destination : String) : String :=
  let d1 := String.mk (removeFirstSub destination.data (placeholder ++ "/").data)
  let d2 := String.mk (removeFirstSub d1.data placeholder.data)
  if d2 = "" then "." else d2

/-- Go `filepath.Join(base, rel)` for a cleaned absolute `base` and a cleaned
relative `rel` (the only shapes the resource mapper produces): `.` joins to
the base itself, anything else is appended after a slash. -/
def joinPath (base rel : String) : String :=
  if rel = "." then base else base ++ "/" ++ rel

/-- Go `filepath.Base`: drop trailing slashes, then keep everything after the
final slash (`.` for the empty path, `/` when only slashes remain). -/
def baseName (s : String) : String :=
  if s = "" then "."
  else
    let noSlash := List.dropWhile (fun c => c == '/') s.data.reverse
    if noSlash = [] then "/"
    else String.mk (List.takeWhile (fun c => !(c == '/')) noSlash).reverse

/-- Absolute destination directory of a mapping: the normalized relative
destination joined against the working directory
(src/pkg/resources/resources.go:122-127). -/
def destDirOf (cwd : String) (m : Mapping) : String :=
  joinPath cwd (normalizeDestRel m.destination)

/-- Absolute destination file of a mapping
(src/pkg/resources/resources.go:155, 202). -/
def destPathOf (cwd : String) (m : Mapping) : String :=
  joinPath (destDirOf cwd m) (baseName m.source)

/-- Model of `os.MkdirAll` at the destination-directory granularity: an
existing file at the path is an error, an existing directory is a no-op. -/
def mkdirAll (fs : Fs) (p : String) : Option String × Fs :=
  match fs.lookup p with
  | some (.file _) => (some ("failed to create destination directory " ++ p), fs)
  | some .dir => (none, fs)
  | none => (none, fs.set p .dir)

/-- Embedding of `copyFile` (src/pkg/resources/resources.go:164-183):
open the source, create (truncate) the destination, copy the bytes. -/
def copyFileFs (fs : Fs) (src dst : String) : Option String × Fs :=
  match fs.lookup src with
  | some (.file c) =>
    match fs.lookup dst with
    | some .dir => (some ("failed to create destination file " ++ dst), fs)
    | _ => (none, fs.set dst (.file c))
  | _ => (some ("failed to open source file " ++ src), fs)

/-- Embedding of `copyMapping` (src/pkg/resources/resources.go:130-162):
stat the source (missing or directory is an error, before any write), create
the destination directory, then copy the file to `destDir/Base(source)`. -/
def copyMapping (cwd : String) (fs : Fs) (m : Mapping) : Option String × Fs :=
  match fs.lookup m.source with
  | none =>
    (some ("source file " ++ m.source ++ " for mapping " ++ m.legibleName ++
      " does not exist"), fs)
  | some .dir =>
    (some ("source path " ++ m.source ++ " for mapping " ++ m.legibleName ++
      " is a directory"), fs)
  | some (.file _) =>
    match mkdirAll fs (destDirOf cwd m) with
    | (some e, fs1) => (some e, fs1)
    | (none, fs1) => copyFileFs fs1 m.source (destPathOf cwd m)

/-- Embedding of `CopyAllMappings` (src/pkg/resources/resources.go:185-207):
copy each mapping in order, stopping at the first error (no partial path list
is reported), otherwise collect every destination path. -/
def copyAllMappings (cwd : String) (fs : Fs) :
    List Mapping → Except String (List String) × Fs
  | [] => (.ok [], fs)
  | m :: ms =>
    match copyMapping cwd fs m with
    | (some e, fs1) =>
      (.error ("failed processing mapping " ++ m.legibleName ++ ": " ++ e), fs1)
    | (none, fs1) =>
      match copyAllMappings cwd fs1 ms with
      | (.ok ps, fs2) => (.ok (destPathOf cwd m :: ps), fs2)
      | (.error e, fs2) => (.error e, fs2)

lemma Fs.lookup_set_self (fs : Fs) (p : String) (e : FsEntry) :
    (fs.set p e).lookup p = some e := by
  simp [Fs.set, Fs.lookup, List.find?]

lemma find?_key_filter (l : List (String × FsEntry)) (p q : String) (h : q ≠ p) :
    (l.filter (fun r => r.1 != p)).find? (fun r => r.1 == q) =
      l.find? (fun r => r.1 == q) := by
  induction l with
  | nil => rfl
  | cons a t ih =>
    by_cases ha : a.1 = p
    · have h1 : (a.1 != p) = false := by simp [ha]
      have h2 : (a.1 == q) = false := by
        simp [ha]
        exact fun he => h he.symm
      simp [List.filter_cons, h1, List.find?, h2, ih]
    · have h1 : (a.1 != p) = true := by simp [ha]
      by_cases hq : a.1 = q
      · simp [List.filter_cons, h1, List.find?, hq, h]
      · have h2 : (a.1 == q) = false := by simp [hq]
        simp [List.filter_cons, h1, List.find?, h2, ih]

lemma Fs.lookup_set_ne (fs : Fs) (p q : String) (e : FsEntry) (h : q ≠ p) :
    (fs.set p e).lookup q = fs.lookup q := by
  have h2 : (p == q) = false := by
    simp
    exact fun he => h he.symm
  simp [Fs.set, Fs.lookup, List.find?, h2, find?_key_filter fs.entries p q h]

lemma joinPath_ne_base (base rel : String) (h : rel ≠ ".") :
    joinPath base rel ≠ base := by
  unfold joinPath
  rw [if_neg h]
  intro heq
  have hl := congrArg String.length heq
  rw [String.length_append, String.length_append] at hl
  have hone : ("/" : String).length = 1 := by decide
  omega

/-- C4: with one mapping whose source is an existing regular file, whose
normalized destination directory does not yet exist (so neither does the
destination file), and whose source has a proper base name (any cleaned path
of a regular file does), `CopyAllMappings` creates the destination directory,
copies the file to `destDir/Base(source)`, and returns exactly that path; and
with a mapping whose source is a directory it fails without touching the
filesystem. -/
theorem C4_copy_all_mappings :
    (∀ (cwd : String) (fs : Fs) (m : Mapping) (c : String),
      fs.lookup m.source = some (.file c) →
      fs.lookup (destDirOf cwd m) = none →
      fs.lookup (destPathOf cwd m) = none →
      baseName m.source ≠ "." →
      (copyAllMappings cwd fs [m]).1 = .ok [destPathOf cwd m] ∧
      ((copyAllMappings cwd fs [m]).2).lookup (destDirOf cwd m) = some .dir ∧
      ((copyAllMappings cwd fs [m]).2).lookup (destPathOf cwd m) = some (.file c) ∧
      destPathOf cwd m = joinPath (destDirOf cwd m) (baseName m.source)) ∧
    (∀ (cwd : String) (fs : Fs) (m : Mapping),
      fs.lookup m.source = some .dir →
      (∃ e, (copyAllMappings cwd fs [m]).1 = .error e) ∧
      (copyAllMappings cwd fs [m]).2 = fs) := by
  constructor
  · intro cwd fs m c h1 h2 h3 h4
    have hsd : m.source ≠ destDirOf cwd m := by
      intro he
      rw [he, h2] at h1
      cases h1
    have hpd : destPathOf cwd m ≠ destDirOf cwd m :=
      joinPath_ne_base (destDirOf cwd m) (baseName m.source) h4
    have hstep : copyMapping cwd fs m =
        (none, (fs.set (destDirOf cwd m) .dir).set (destPathOf cwd m) (.file c)) := by
      simp only [copyMapping, h1, mkdirAll, h2, copyFileFs,
        Fs.lookup_set_ne fs (destDirOf cwd m) m.source .dir hsd,
        Fs.lookup_set_ne fs (destDirOf cwd m) (destPathOf cwd m) .dir hpd, h3]
    have hall : copyAllMappings cwd fs [m] =
        (.ok [destPathOf cwd m],
          (fs.set (destDirOf cwd m) .dir).set (destPathOf cwd m) (.file c)) := by
      unfold copyAllMappings
      rw [hstep]
      rfl
    refine ⟨by rw [hall], ?_, ?_, rfl⟩
    · rw [hall]
      simp only
      rw [Fs.lookup_set_ne _ (destPathOf cwd m) (destDirOf cwd m) (.file c)
        (fun he => hpd he.symm)]
      exact Fs.lookup_set_self fs (destDirOf cwd m) .dir
    · rw [hall]
      exact Fs.lookup_set_self _ (destPathOf cwd m) (.file c)
  · intro cwd fs m h1
    have hstep : copyMapping cwd fs m =
        (some ("source path " ++ m.source ++ " for mapping " ++ m.legibleName ++
          " is a directory"), fs) := by
      unfold copyMapping
      rw [h1]
    constructor
    · refine ⟨"failed processing mapping " ++ m.legibleName ++ ": " ++
        ("source path " ++ m.source ++ " for mapping " ++ m.legibleName ++
          " is a directory"), ?_⟩
      unfold copyAllMappings
      rw [hstep]
    · show (copyAllMappings cwd fs [m]).2 = fs
      unfold copyAllMappings
      rw [hstep]

/-- Closed instantiation of `C4_copy_all_mappings`: one mapping with the
placeholder destination copies `tmp/a.txt` to `repo/config/a.txt` and creates
`repo/config`; a directory source is rejected leaving the filesystem
untouched. -/
theorem C4_witness :
    (copyAllMappings "repo" ⟨[("tmp/a.txt", .file "hello")]⟩
        [⟨"cfg", "tmp/a.txt", "$\x7bnext-enterprise\x7d/config"⟩]).1 =
      .ok [destPathOf "repo" ⟨"cfg", "tmp/a.txt", "$\x7bnext-enterprise\x7d/config"⟩] ∧
    ((copyAllMappings "repo" ⟨[("tmp/a.txt", .file "hello")]⟩
        [⟨"cfg", "tmp/a.txt", "$\x7bnext-enterprise\x7d/config"⟩]).2).lookup
      (destDirOf "repo" ⟨"cfg", "tmp/a.txt", "$\x7bnext-enterprise\x7d/config"⟩) =
        some .dir ∧
    destPathOf "repo" ⟨"cfg", "tmp/a.txt", "$\x7bnext-enterprise\x7d/config"⟩ =
      "repo/config/a.txt" ∧
    (∃ e, (copyAllMappings "repo" ⟨[("tmp", .dir)]⟩
        [⟨"cfg", "tmp", "$\x7bnext-enterprise\x7d/config"⟩]).1 = .error e) ∧
    (copyAllMappings "repo" ⟨[("tmp", .dir)]⟩
        [⟨"cfg", "tmp", "$\x7bnext-enterprise\x7d/config"⟩]).2 =
      ⟨[("tmp", .dir)]⟩ := by
  have h := C4_copy_all_mappings.1 "repo" ⟨[("tmp/a.txt", .file "hello")]⟩
    ⟨"cfg", "tmp/a.txt", "$\x7bnext-enterprise\x7d/config"⟩ "hello"
    (by decide) (by decide) (by decide) (by decide)
  have h2 := C4_copy_all_mappings.2 "repo" ⟨[("tmp", .dir)]⟩
    ⟨"cfg", "tmp", "$\x7bnext-enterprise\x7d/config"⟩ (by decide)
  exact ⟨h.1, h.2.1, by decide, h2.1, h2.2⟩

/-! Model of the structured-text (HCL) codemod (src/pkg/codemod/hcl.go). A
parsed HCL file is a list of blocks; a block has a type, labels, an attribute
list and nested blocks. `hclwrite`'s `Body.SetAttributeValue` overwrites an
existing attribute in place or appends a new one;
`Body.FirstMatchingBlock` finds the first block with the given type and
labels. Reading and writing backend.tf on disk is abstracted away: the model
transforms the parsed file. -/

/-- A parsed HCL block: type, labels, attributes (name-value pairs, values
taken as strings since the codemod only writes `cty.StringVal`), and nested
blocks. -/
inductive HclBlock where
  | mk (btype : String) (labels : List String) (attrs : List (String × String))
      (blocks : List HclBlock)

/-- Block type accessor. -/
def HclBlock.btype : HclBlock → String
  | .mk t _ _ _ => t

/-- Block labels accessor. -/
def HclBlock.labels : HclBlock → List String
  | .mk _ l _ _ => l

/-- Block attributes accessor. -/
def HclBlock.attrs : HclBlock → List (String × String)
  | .mk _ _ a _ => a

/-- Nested blocks accessor. -/
def HclBlock.blocks : HclBlock → List HclBlock
  | .mk _ _ _ bs => bs

/-- Replace the nested blocks of a block. -/
def HclBlock.withBlocks : HclBlock → List HclBlock → HclBlock
  | .mk t l a _, bs => .mk t l a bs

/-- `Body.SetAttributeValue` on an attribute list: overwrite the existing
attribute of that name, or append a new one. -/
def setAttr (attrs : List (String × String)) (name v : String) :
    List (String × String) :=
  if attrs.any (fun a => a.1 == name) then
    attrs.map (fun a => if a.1 == name then (a.1, v) else a)
  else attrs ++ [(name, v)]

/-- `Body.SetAttributeValue` on a block. -/
def HclBlock.setAttrVal (b : HclBlock) (name v : String) : HclBlock :=
  match b with
  | .mk t l a bs => .mk t l (setAttr a name v) bs

/-- `Body.FirstMatchingBlock` predicate: the block has the given type and
label list. -/
def isBlockType (t : String) (ls : List String) (b : HclBlock) : Bool :=
  b.btype == t && b.labels == ls

/-- First block of a list satisfying a predicate. -/
def findFirst (p : HclBlock → Bool) : List HclBlock → Option HclBlock
  | [] => none
  | b :: bs => if p b then some b else findFirst p bs

/-- In-place mutation of the first block satisfying `p`: the pure counterpart
of mutating the block `FirstMatchingBlock` returned. -/
def replaceFirstBlock (p : HclBlock → Bool) (g : HclBlock → HclBlock) :
    List HclBlock → List HclBlock
  | [] => []
  | b :: bs => if p b then g b :: bs else b :: replaceFirstBlock p g bs

/-- A parsed HCL file: its top-level blocks. -/
structure HclFile where
  blocks : List HclBlock

/-- Embedding of `HclCodemodConfig` (src/pkg/codemod/hcl.go:18-23). -/
structure HclCodemodConfig where
  sourceDir : String
  region : String
  bucketName : String
  projectName : String
  deriving DecidableEq

/-- Attribute updates `ModifyBackend` applies to the backend block
(src/pkg/codemod/hcl.go:103-106): optionally the bucket, then the region. -/
def updateBackendBlock (cfg : HclCodemodConfig) (bb : HclBlock) : HclBlock :=
  let bb1 := if cfg.bucketName ≠ "" then bb.setAttrVal "bucket" cfg.bucketName else bb
  bb1.setAttrVal "region" cfg.region

/-- Embedding of `ModifyBackend` (src/pkg/codemod/hcl.go:86-112) together
with `findBackendBlock` (115-126): locate the first `terraform` block and its
first `backend "s3"` block (either missing is an error), then set the
attributes in place. -/
def modifyBackend (cfg : HclCodemodConfig) (f : HclFile) : Except String HclFile :=
  match findFirst (isBlockType "terraform" []) f.blocks with
  | none => .error "terraform block not found in backend.tf"
  | some tb =>
    match findFirst (isBlockType "backend" ["s3"]) tb.blocks with
    | none => .error "backend \"s3\" block not found in backend.tf"
    | some _ =>
      .ok ⟨replaceFirstBlock (isBlockType "terraform" [])
        (fun t => t.withBlocks (replaceFirstBlock (isBlockType "backend" ["s3"])
          (updateBackendBlock cfg) t.blocks)) f.blocks⟩

/-- Attributes of the backend block the codemod targets. -/
def backendAttrs (f : HclFile) : Option (List (String × String)) :=
  match findFirst (isBlockType "terraform" []) f.blocks with
  | none => none
  | some tb =>
    match findFirst (isBlockType "backend" ["s3"]) tb.blocks with
    | none => none
    | some bb => some bb.attrs

/-- Values of all `region` attributes of the backend block the codemod
targets. -/
def regionValues (f : HclFile) : Option (List String) :=
  (backendAttrs f).map (fun as => (as.filter (fun a => a.1 == "region")).map (fun a => a.2))

lemma findFirst_replaceFirst (p : HclBlock → Bool) (g : HclBlock → HclBlock)
    (l : List HclBlock) (b : HclBlock) (hfind : findFirst p l = some b)
    (hg : p (g b) = true) :
    findFirst p (replaceFirstBlock p g l) = some (g b) := by
  induction l with
  | nil => cases hfind
  | cons a t ih =>
    by_cases hpa : p a
    · have hab : a = b := by
        have : some a = some b := by simpa [findFirst, hpa] using hfind
        exact Option.some.inj this
      subst hab
      simp [replaceFirstBlock, hpa, findFirst, hg]
    · have hfind2 : findFirst p t = some b := by
        simpa [findFirst, hpa] using hfind
      simp [replaceFirstBlock, hpa, findFirst, ih hfind2]

lemma isBlockType_withBlocks (t : String) (ls : List String) (b : HclBlock)
    (bs : List HclBlock) :
    isBlockType t ls (b.withBlocks bs) = isBlockType t ls b := by
  cases b
  rfl

lemma isBlockType_setAttrVal (t : String) (ls : List String) (b : HclBlock)
    (name v : String) :
    isBlockType t ls (b.setAttrVal name v) = isBlockType t ls b := by
  cases b
  rfl

lemma isBlockType_updateBackend (t : String) (ls : List String) (b : HclBlock)
    (cfg : HclCodemodConfig) :
    isBlockType t ls (updateBackendBlock cfg b) = isBlockType t ls b := by
  unfold updateBackendBlock
  split <;> simp [isBlockType_setAttrVal]

lemma findFirst_pred (p : HclBlock → Bool) (l : List HclBlock) (b : HclBlock)
    (h : findFirst p l = some b) : p b = true := by
  induction l with
  | nil => cases h
  | cons a t ih =>
    by_cases hpa : p a
    · have : a = b := Option.some.inj (by simpa [findFirst, hpa] using h)
      exact this ▸ hpa
    · exact ih (by simpa [findFirst, hpa] using h)

lemma HclBlock.blocks_withBlocks (b : HclBlock) (bs : List HclBlock) :
    (b.withBlocks bs).blocks = bs := by
  cases b
  rfl

lemma HclBlock.attrs_setAttrVal (b : HclBlock) (name v : String) :
    (b.setAttrVal name v).attrs = setAttr b.attrs name v := by
  cases b
  rfl

lemma updateBackendBlock_no_bucket (d r p : String) (b : HclBlock) :
    updateBackendBlock ⟨d, r, "", p⟩ b = b.setAttrVal "region" r := by
  unfold updateBackendBlock
  simp

lemma map_region_id (attrs : List (String × String)) (v : String)
    (hnone : ∀ a ∈ attrs, a.1 ≠ "region") :
    attrs.map (fun a => if a.1 == "region" then (a.1, v) else a) = attrs := by
  induction attrs with
  | nil => rfl
  | cons a t ih =>
    have h1 : (a.1 == "region") = false := by
      simp [hnone a (List.mem_cons_self a t)]
    simp only [List.map_cons, h1, Bool.false_eq_true, if_false]
    rw [ih (fun x hx => hnone x (List.mem_cons_of_mem a hx))]

/-- C7: on a backend declaration whose `terraform` / `backend "s3"` block has
no `region` attribute, the region-setter succeeds and leaves exactly one
`region` attribute carrying the supplied value; applying it again with a
different value replaces that attribute (still exactly one) instead of
duplicating it. -/
theorem C7_hcl_region_setter (f : HclFile) (attrs : List (String × String))
    (dir v vAlt : String)
    (hb : backendAttrs f = some attrs)
    (hnone : ∀ a ∈ attrs, a.1 ≠ "region") :
    ∃ f1, modifyBackend ⟨dir, v, "", ""⟩ f = .ok f1 ∧
      regionValues f1 = some [v] ∧
      ∃ f2, modifyBackend ⟨dir, vAlt, "", ""⟩ f1 = .ok f2 ∧
        regionValues f2 = some [vAlt] := by
  rcases hT : findFirst (isBlockType "terraform" []) f.blocks with _ | tb
  · simp only [backendAttrs, hT] at hb
    exact Option.noConfusion hb
  · rcases hB : findFirst (isBlockType "backend" ["s3"]) tb.blocks with _ | bb
    · simp only [backendAttrs, hT, hB] at hb
      exact Option.noConfusion hb
    · simp only [backendAttrs, hT, hB, Option.some.injEq] at hb
      have hpT : isBlockType "terraform" [] tb = true := findFirst_pred _ _ _ hT
      have hpB : isBlockType "backend" ["s3"] bb = true := findFirst_pred _ _ _ hB
      have hanyf : (attrs.any (fun a => a.1 == "region")) = false := by
        rw [List.any_eq_false]
        intro a ha
        simp [hnone a ha]
      -- the first application
      set cfg1 : HclCodemodConfig := ⟨dir, v, "", ""⟩ with hcfg1
      set g1 : HclBlock → HclBlock := fun t =>
        t.withBlocks (replaceFirstBlock (isBlockType "backend" ["s3"])
          (updateBackendBlock cfg1) t.blocks) with hg1
      set f1 : HclFile := ⟨replaceFirstBlock (isBlockType "terraform" []) g1 f.blocks⟩
        with hf1
      have hok1 : modifyBackend cfg1 f = .ok f1 := by
        simp only [modifyBackend, hT, hB]
      have hupd1 : updateBackendBlock cfg1 bb =
          bb.setAttrVal "region" v := by
        rw [hcfg1]
        exact updateBackendBlock_no_bucket dir v "" bb
      have hattrs1 : (updateBackendBlock cfg1 bb).attrs = attrs ++ [("region", v)] := by
        rw [hupd1, HclBlock.attrs_setAttrVal, hb]
        unfold setAttr
        rw [if_neg (by simp [hanyf])]
      have hT1 : findFirst (isBlockType "terraform" []) f1.blocks = some (g1 tb) := by
        rw [hf1]
        exact findFirst_replaceFirst _ _ _ _ hT
          (by rw [hg1]; simpa [isBlockType_withBlocks] using hpT)
      have hB1 : findFirst (isBlockType "backend" ["s3"]) (g1 tb).blocks =
          some (updateBackendBlock cfg1 bb) := by
        rw [hg1]
        simp only [HclBlock.blocks_withBlocks]
        exact findFirst_replaceFirst _ _ _ _ hB
          (by simpa [isBlockType_updateBackend] using hpB)
      have hbAttrs1 : backendAttrs f1 = some (attrs ++ [("region", v)]) := by
        simp only [backendAttrs, hT1, hB1, hattrs1]
      have hreg1 : regionValues f1 = some [v] := by
        rw [regionValues, hbAttrs1]
        simp only [Option.map_some', Option.some.injEq]
        rw [List.filter_append]
        rw [List.filter_eq_nil_iff.mpr (fun a ha => by simp [hnone a ha])]
        simp
      refine ⟨f1, hok1, hreg1, ?_⟩
      -- the second application
      set cfg2 : HclCodemodConfig := ⟨dir, vAlt, "", ""⟩ with hcfg2
      set g2 : HclBlock → HclBlock := fun t =>
        t.withBlocks (replaceFirstBlock (isBlockType "backend" ["s3"])
          (updateBackendBlock cfg2) t.blocks) with hg2
      set f2 : HclFile := ⟨replaceFirstBlock (isBlockType "terraform" []) g2 f1.blocks⟩
        with hf2
      have hok2 : modifyBackend cfg2 f1 = .ok f2 := by
        simp only [modifyBackend, hT1, hB1]
      have hattrs2 : (updateBackendBlock cfg2 (updateBackendBlock cfg1 bb)).attrs =
          attrs ++ [("region", vAlt)] := by
        have : updateBackendBlock cfg2 (updateBackendBlock cfg1 bb) =
            (updateBackendBlock cfg1 bb).setAttrVal "region" vAlt := by
          rw [hcfg2]
          exact updateBackendBlock_no_bucket dir vAlt "" _
        rw [this, HclBlock.attrs_setAttrVal, hattrs1]
        unfold setAttr
        rw [if_pos (by simp)]
        rw [List.map_append, map_region_id attrs vAlt hnone]
        simp
      have hpT1 : isBlockType "terraform" [] (g1 tb) = true := by
        rw [hg1]; simpa [isBlockType_withBlocks] using hpT
      have hpB1 : isBlockType "backend" ["s3"] (updateBackendBlock cfg1 bb) = true := by
        simpa [isBlockType_updateBackend] using hpB
      have hT2 : findFirst (isBlockType "terraform" []) f2.blocks = some (g2 (g1 tb)) := by
        rw [hf2]
        exact findFirst_replaceFirst _ _ _ _ hT1
          (by rw [hg2]; simpa [isBlockType_withBlocks] using hpT1)
      have hB2 : findFirst (isBlockType "backend" ["s3"]) (g2 (g1 tb)).blocks =
          some (updateBackendBlock cfg2 (updateBackendBlock cfg1 bb)) := by
        rw [hg2]
        simp only [HclBlock.blocks_withBlocks]
        exact findFirst_replaceFirst _ _ _ _ hB1
          (by simpa [isBlockType_updateBackend] using hpB1)
      have hbAttrs2 : backendAttrs f2 = some (attrs ++ [("region", vAlt)]) := by
        simp only [backendAttrs, hT2, hB2, hattrs2]
      have hreg2 : regionValues f2 = some [vAlt] := by
        rw [regionValues, hbAttrs2]
        simp only [Option.map_some', Option.some.injEq]
        rw [List.filter_append]
        rw [List.filter_eq_nil_iff.mpr (fun a ha => by simp [hnone a ha])]
        simp
      exact ⟨f2, hok2, hreg2⟩

/-- A backend.tf parse result as the template ships it: a `terraform` block
holding a `backend "s3"` block with no `region` attribute. -/
def hclExampleFile : HclFile :=
  ⟨[.mk "terraform" [] []
    [.mk "backend" ["s3"] [("encrypt", "true")] []]]⟩

/-- Closed instantiation of `C7_hcl_region_setter` on `hclExampleFile`:
setting `eu-west-1` yields exactly that region, and re-running with
`us-east-2` replaces it. -/
theorem C7_witness :
    ((modifyBackend ⟨"terraform", "eu-west-1", "", ""⟩ hclExampleFile).map
      regionValues = .ok (some ["eu-west-1"])) ∧
    (((modifyBackend ⟨"terraform", "eu-west-1", "", ""⟩ hclExampleFile).bind
        (modifyBackend ⟨"terraform", "us-east-2", "", ""⟩)).map regionValues =
      .ok (some ["us-east-2"])) := by
  obtain ⟨f1, hok1, hreg1, f2, hok2, hreg2⟩ :=
    C7_hcl_region_setter hclExampleFile [("encrypt", "true")]
      "terraform" "eu-west-1" "us-east-2" (by decide)
      (by intro a ha; simp at ha; simp [ha])
  constructor
  · rw [hok1]
    simp [Except.map, hreg1]
  · rw [hok1]
    show (((Except.ok f1 : Except String HclFile).bind
      (modifyBackend ⟨"terraform", "us-east-2", "", ""⟩)).map regionValues) = _
    simp only [Except.bind]
    rw [hok2]
    simp [Except.map, hreg2]

/-! Model of the jscodeshift transform src/codemods/next-config.js. The parsed
file keeps exactly what the transform inspects: whether the path ends in
`.ts`, the variable declarations (a declaration whose first declarator is
`config` initialized with an object literal, or anything else), and the
`export default` object literals. A property has an optional key name
(`prop.key && prop.key.name` — `none` models a missing key or a non-identifier
key) and a value; the three injected properties have fixed values. Printing
and re-parsing is the identity on this representation, matching jscodeshift's
faithful round-trip of an unchanged AST. -/

/-- Property values: the three payloads the transform inserts, or any other
expression (opaque). -/
inductive PropVal where
  | standaloneOutput
  | cacheHandlerExpr
  | envObject
  | opaqueVal (n : Nat)
  deriving DecidableEq

/-- An object-literal property: optional identifier-key name and value. -/
structure JsProperty where
  key : Option String
  val : PropVal
  deriving DecidableEq

/-- The `output: 'standalone'` property pushed by the transform. -/
def outputProp : JsProperty := ⟨some "output", .standaloneOutput⟩

/-- The `cacheHandler: ...` property pushed by the transform. -/
def cacheHandlerProp : JsProperty := ⟨some "cacheHandler", .cacheHandlerExpr⟩

/-- The `env: \x7b ... \x7d` property pushed by the transform. -/
def envProp : JsProperty := ⟨some "env", .envObject⟩

/-- The existence guard `properties.some(p => p.key && p.key.name === k)`. -/
def hasKey (ps : List JsProperty) (k : String) : Bool :=
  ps.any (fun p => p.key == some k)

/-- One guarded insertion: push `p` unless a property with key `k` exists. -/
def ensureProp (ps : List JsProperty) (k : String) (p : JsProperty) :
    List JsProperty × Bool :=
  if hasKey ps k then (ps, false) else (ps ++ [p], true)

/-- The three guarded insertions the transform performs on one object literal
(src/codemods/next-config.js:19-75 and 91-147), in order. -/
def injectProps (ps : List JsProperty) : List JsProperty × Bool :=
  let r1 := ensureProp ps "output" outputProp
  let r2 := ensureProp r1.1 "cacheHandler" cacheHandlerProp
  let r3 := ensureProp r2.1 "env" envProp
  (r3.1, r1.2 || r2.2 || r3.2)

/-- A top-level variable declaration as the transform classifies it. -/
inductive TsDecl where
  | configObj (props : List JsProperty)
  | otherDecl (n : Nat)
  deriving DecidableEq

/-- Handling of one variable declaration in the TypeScript branch
(src/codemods/next-config.js:10-77). -/
def stepDecl : TsDecl → TsDecl × Bool
  | .configObj ps => (.configObj (injectProps ps).1, (injectProps ps).2)
  | .otherDecl n => (.otherDecl n, false)

/-- Run a per-element transform over a list, or-ing the modified flags. -/
def mapAccumBool {α : Type} (g : α → α × Bool) : List α → List α × Bool
  | [] => ([], false)
  | a :: as => ((g a).1 :: (mapAccumBool g as).1, (g a).2 || (mapAccumBool g as).2)

/-- The parsed source file as the transform sees it. -/
structure JsFile where
  isTypeScript : Bool
  varDecls : List TsDecl
  exportDefaultObjs : List (List JsProperty)
  deriving DecidableEq

/-- One run of the transform body (src/codemods/next-config.js:1-159): the
TypeScript pass over `config` variable declarations, then — for JavaScript
files or when the first pass changed nothing — the pass over `export default`
object literals; the conditional-export pass only logs. Returns the new file
and the `modified` flag. -/
def transformFile (f : JsFile) : JsFile × Bool :=
  let tsRes := if f.isTypeScript then mapAccumBool stepDecl f.varDecls
               else (f.varDecls, false)
  let edRes := if !f.isTypeScript || !tsRes.2 then
                 mapAccumBool injectProps f.exportDefaultObjs
               else (f.exportDefaultObjs, false)
  ({ f with varDecls := tsRes.1, exportDefaultObjs := edRes.1 }, tsRes.2 || edRes.2)

/-- The transform's return value (src/codemods/next-config.js:162): the
printed modified tree when something changed, the original source otherwise. -/
def runTransform (f : JsFile) : JsFile :=
  if (transformFile f).2 then (transformFile f).1 else f

/-- All three injected keys are present. -/
def objComplete (ps : List JsProperty) : Bool :=
  hasKey ps "output" && hasKey ps "cacheHandler" && hasKey ps "env"

/-- Every `config` variable declaration's object has all three keys. -/
def allConfigsComplete (l : List TsDecl) : Bool :=
  l.all (fun d => match d with
    | .configObj ps => objComplete ps
    | .otherDecl _ => true)

/-- Every `export default` object literal has all three keys. -/
def allObjsComplete (l : List (List JsProperty)) : Bool :=
  l.all objComplete

lemma hasKey_append_one (ps : List JsProperty) (p : JsProperty) (k : String) :
    hasKey (ps ++ [p]) k = (hasKey ps k || (p.key == some k)) := by
  simp [hasKey, List.any_append]

lemma hasKey_ensure_self (ps : List JsProperty) (k : String) (p : JsProperty)
    (hp : p.key = some k) :
    hasKey (ensureProp ps k p).1 k = true := by
  unfold ensureProp
  split
  next h => simpa using h
  next h => simp [hasKey_append_one, hp]

lemma hasKey_ensure_mono (ps : List JsProperty) (k k2 : String) (p : JsProperty)
    (h : hasKey ps k2 = true) :
    hasKey (ensureProp ps k p).1 k2 = true := by
  unfold ensureProp
  split
  · exact h
  · simp [hasKey_append_one, h]

lemma ensure_of_hasKey (ps : List JsProperty) (k : String) (p : JsProperty)
    (h : hasKey ps k = true) :
    ensureProp ps k p = (ps, false) := by
  simp [ensureProp, h]

lemma ensure_snd_false (ps : List JsProperty) (k : String) (p : JsProperty)
    (h : (ensureProp ps k p).2 = false) :
    (ensureProp ps k p).1 = ps := by
  unfold ensureProp at *
  by_cases hk : hasKey ps k
  · simp [hk]
  · simp [hk] at h

lemma injectProps_complete (ps : List JsProperty) :
    objComplete (injectProps ps).1 = true := by
  unfold injectProps objComplete
  simp only
  have h1 : hasKey (ensureProp ps "output" outputProp).1 "output" = true :=
    hasKey_ensure_self ps "output" outputProp rfl
  have h2 := hasKey_ensure_self (ensureProp ps "output" outputProp).1
    "cacheHandler" cacheHandlerProp rfl
  have h3 := hasKey_ensure_self
    (ensureProp (ensureProp ps "output" outputProp).1 "cacheHandler" cacheHandlerProp).1
    "env" envProp rfl
  have h1b := hasKey_ensure_mono
    (ensureProp (ensureProp ps "output" outputProp).1 "cacheHandler" cacheHandlerProp).1
    "env" "output" envProp
    (hasKey_ensure_mono (ensureProp ps "output" outputProp).1 "cacheHandler" "output"
      cacheHandlerProp h1)
  have h2b := hasKey_ensure_mono
    (ensureProp (ensureProp ps "output" outputProp).1 "cacheHandler" cacheHandlerProp).1
    "env" "cacheHandler" envProp h2
  simp [h1b, h2b, h3]

lemma injectProps_of_complete (ps : List JsProperty) (h : objComplete ps = true) :
    injectProps ps = (ps, false) := by
  unfold objComplete at h
  simp only [Bool.and_eq_true] at h
  unfold injectProps
  rw [ensure_of_hasKey ps "output" outputProp h.1.1]
  simp only
  rw [ensure_of_hasKey ps "cacheHandler" cacheHandlerProp h.1.2]
  simp only
  rw [ensure_of_hasKey ps "env" envProp h.2]
  rfl

lemma injectProps_snd_false (ps : List JsProperty)
    (h : (injectProps ps).2 = false) :
    (injectProps ps).1 = ps := by
  unfold injectProps at *
  simp only [Bool.or_eq_false_iff] at h
  rw [ensure_snd_false _ _ _ h.2] at *
  rw [ensure_snd_false _ _ _ h.1.2] at *
  exact ensure_snd_false _ _ _ h.1.1

lemma pass_completes (l : List TsDecl) :
    allConfigsComplete (mapAccumBool stepDecl l).1 = true := by
  induction l with
  | nil => rfl
  | cons d t ih =>
    cases d with
    | configObj ps =>
      simp [mapAccumBool, stepDecl, allConfigsComplete, List.all_cons,
        injectProps_complete ps]
      simpa [allConfigsComplete] using ih
    | otherDecl n =>
      simp [mapAccumBool, stepDecl, allConfigsComplete, List.all_cons]
      simpa [allConfigsComplete] using ih

lemma edpass_completes (l : List (List JsProperty)) :
    allObjsComplete (mapAccumBool injectProps l).1 = true := by
  induction l with
  | nil => rfl
  | cons ps t ih =>
    simp [mapAccumBool, allObjsComplete, List.all_cons, injectProps_complete ps]
    simpa [allObjsComplete] using ih

lemma pass_of_complete (l : List TsDecl) (h : allConfigsComplete l = true) :
    mapAccumBool stepDecl l = (l, false) := by
  induction l with
  | nil => rfl
  | cons d t ih =>
    simp only [allConfigsComplete, List.all_cons, Bool.and_eq_true] at h
    have ht : mapAccumBool stepDecl t = (t, false) := ih (by simpa [allConfigsComplete] using h.2)
    cases d with
    | configObj ps =>
      have hd : injectProps ps = (ps, false) := injectProps_of_complete ps (by simpa using h.1)
      simp [mapAccumBool, stepDecl, hd, ht]
    | otherDecl n =>
      simp [mapAccumBool, stepDecl, ht]

lemma edpass_of_complete (l : List (List JsProperty)) (h : allObjsComplete l = true) :
    mapAccumBool injectProps l = (l, false) := by
  induction l with
  | nil => rfl
  | cons ps t ih =>
    simp only [allObjsComplete, List.all_cons, Bool.and_eq_true] at h
    have ht : mapAccumBool injectProps t = (t, false) := ih (by simpa [allObjsComplete] using h.2)
    have hd : injectProps ps = (ps, false) := injectProps_of_complete ps h.1
    simp [mapAccumBool, hd, ht]

lemma pass_snd_false (l : List TsDecl) (h : (mapAccumBool stepDecl l).2 = false) :
    (mapAccumBool stepDecl l).1 = l := by
  induction l with
  | nil => rfl
  | cons d t ih =>
    simp only [mapAccumBool, Bool.or_eq_false_iff] at h ⊢
    have ht := ih h.2
    cases d with
    | configObj ps =>
      have hd : (injectProps ps).1 = ps := injectProps_snd_false ps (by simpa [stepDecl] using h.1)
      simp [stepDecl, hd, ht]
    | otherDecl n =>
      simp [stepDecl, ht]

lemma runTransform_of_not_modified (f : JsFile) (h : (transformFile f).2 = false) :
    runTransform f = f := by
  simp [runTransform, h]

/-- C6 counterexample: a TypeScript file holding both a `config` variable
declaration with an empty object literal and an empty `export default` object
literal. The first run fills only the variable declaration (the export-default
pass is skipped because `modified` is already true), so the second run still
modifies the export-default object: the transform is not idempotent and the
second run does not return its input unchanged. -/
def jsCounterexampleFile : JsFile := ⟨true, [.configObj []], [[]]⟩

/-- C6 counterexample theorem: on `jsCounterexampleFile` the second
application modifies again and produces a different file. -/
theorem C6_claim_counterexample :
    (transformFile (runTransform jsCounterexampleFile)).2 = true ∧
    runTransform (runTransform jsCounterexampleFile) ≠ runTransform jsCounterexampleFile := by
  decide

/-- C6 (amended): the transform is idempotent — the second application skips
every property insertion and returns the original source unchanged — for
every input except a TypeScript file in which the variable-declaration pass
makes a change while some `export default` object literal still lacks one of
the three properties (there the skipped fallback pass fires on the second
run). -/
theorem C6_amended_idempotent (f : JsFile)
    (h : ¬(f.isTypeScript = true ∧ (mapAccumBool stepDecl f.varDecls).2 = true ∧
        f.exportDefaultObjs.any (fun ps => !objComplete ps) = true)) :
    (transformFile (runTransform f)).2 = false ∧
    runTransform (runTransform f) = runTransform f := by
  have key : (transformFile (runTransform f)).2 = false := by
    by_cases hts : f.isTypeScript = true
    · cases hm1 : (mapAccumBool stepDecl f.varDecls).2
      · have hvd : (mapAccumBool stepDecl f.varDecls).1 = f.varDecls :=
          pass_snd_false _ hm1
        cases hm2 : (mapAccumBool injectProps f.exportDefaultObjs).2
        · have hnm : (transformFile f).2 = false := by
            simp [transformFile, hts, hm1, hm2]
          rw [runTransform_of_not_modified f hnm]
          exact hnm
        · have hmod : (transformFile f).2 = true := by
            simp [transformFile, hts, hm1, hm2]
          have hrt : runTransform f = (transformFile f).1 := by
            simp [runTransform, hmod]
          rw [hrt]
          have hf1ts : (transformFile f).1.isTypeScript = true := by
            simp [transformFile, hts]
          have hf1vd : (transformFile f).1.varDecls = f.varDecls := by
            simp [transformFile, hts, hvd]
          have hf1ed : (transformFile f).1.exportDefaultObjs =
              (mapAccumBool injectProps f.exportDefaultObjs).1 := by
            simp [transformFile, hts, hm1]
          generalize hgen : (transformFile f).1 = f1
          rw [hgen] at hf1ts hf1vd hf1ed
          simp [transformFile, hf1ts, hf1vd, hf1ed, hm1,
            edpass_of_complete _ (edpass_completes f.exportDefaultObjs)]
      · have hedc : allObjsComplete f.exportDefaultObjs = true := by
          have hC : f.exportDefaultObjs.any (fun ps => !objComplete ps) = false := by
            by_cases hC' : f.exportDefaultObjs.any (fun ps => !objComplete ps) = true
            · exact absurd ⟨hts, hm1, hC'⟩ h
            · simpa using hC'
          rw [List.any_eq_false] at hC
          rw [allObjsComplete, List.all_eq_true]
          intro ps hps
          have := hC ps hps
          simpa using this
        have hmod : (transformFile f).2 = true := by
          simp [transformFile, hts, hm1]
        have hrt : runTransform f = (transformFile f).1 := by
          simp [runTransform, hmod]
        rw [hrt]
        have hf1ts : (transformFile f).1.isTypeScript = true := by
          simp [transformFile, hts]
        have hf1vd : (transformFile f).1.varDecls =
            (mapAccumBool stepDecl f.varDecls).1 := by
          simp [transformFile, hts]
        have hf1ed : (transformFile f).1.exportDefaultObjs = f.exportDefaultObjs := by
          simp [transformFile, hts, hm1]
        generalize hgen : (transformFile f).1 = f1
        rw [hgen] at hf1vd hf1ts hf1ed
        simp [transformFile, hf1ts, hf1vd, hf1ed,
          pass_of_complete _ (pass_completes f.varDecls),
          edpass_of_complete _ hedc]
    · have hts' : f.isTypeScript = false := by simpa using hts
      cases hm2 : (mapAccumBool injectProps f.exportDefaultObjs).2
      · have hnm : (transformFile f).2 = false := by
          simp [transformFile, hts', hm2]
        rw [runTransform_of_not_modified f hnm]
        exact hnm
      · have hmod : (transformFile f).2 = true := by
          simp [transformFile, hts', hm2]
        have hrt : runTransform f = (transformFile f).1 := by
          simp [runTransform, hmod]
        rw [hrt]
        have hf1ts : (transformFile f).1.isTypeScript = false := by
          simp [transformFile, hts']
        have hf1ed : (transformFile f).1.exportDefaultObjs =
            (mapAccumBool injectProps f.exportDefaultObjs).1 := by
          simp [transformFile, hts']
        generalize hgen : (transformFile f).1 = f1
        rw [hgen] at hf1ts hf1ed
        simp [transformFile, hf1ts, hf1ed,
          edpass_of_complete _ (edpass_completes f.exportDefaultObjs)]
  exact ⟨key, runTransform_of_not_modified _ key⟩

/-- Closed instantiation of `C6_amended_idempotent`: a JavaScript file with
one empty `export default` object is transformed once, and the second run is
a no-op. -/
theorem C6_amended_witness :
    (transformFile (runTransform ⟨false, [], [[]]⟩)).2 = false ∧
    runTransform (runTransform ⟨false, [], [[]]⟩) = runTransform ⟨false, [], [[]]⟩ :=
  C6_amended_idempotent ⟨false, [], [[]]⟩ (by decide)

/-! Model of the AWS provider's `PrepareWithContext`
(src/pkg/provider/aws/aws.go:504-973, the version with `activeBranch`) and its
`cleanup` helper (aws.go:1003-1025). Each fallible step's outcome is supplied
by an environment record, in the order the Go code runs them; the provider's
mutable fields and the observable events (temp-dir creation, clone start,
cleanup invocation and what cleanup saw) are threaded through a state record.
In this model a `GoErr.msgErr` carries the `fmt.Errorf` message text, so two
`errors.New` values with the same text collapse; no claim below depends on
telling those apart. -/

/-- Outcome of running an interactive form. -/
inductive FormOutcome where
  | ok
  | cancelled
  | failed (e : GoErr)
  deriving DecidableEq

/-- Decidable equality for `Except`, needed to evaluate the model's results
on concrete environments. -/
instance {E A : Type} [DecidableEq E] [DecidableEq A] : DecidableEq (Except E A) :=
  fun a b =>
    match a, b with
    | .error e1, .error e2 =>
      if h : e1 = e2 then isTrue (by rw [h]) else isFalse (by intro hc; cases hc; exact h rfl)
    | .ok v1, .ok v2 =>
      if h : v1 = v2 then isTrue (by rw [h]) else isFalse (by intro hc; cases hc; exact h rfl)
    | .error _, .ok _ => isFalse (by intro hc; cases hc)
    | .ok _, .error _ => isFalse (by intro hc; cases hc)

/-- Outcomes of every fallible step of `PrepareWithContext`, in program
order. The two cancellation booleans are the context state sampled at the two
`checkCancelled` checkpoints. The outcomes of the two warning-only git
commands after the push (deleting the timestamp branch and the old local
`main`) are included for completeness but cannot influence control flow, as in
the Go code. -/
structure PrepEnv where
  cancelledAtStart : Bool
  orgs : Except GoErr (List String)
  configForm : FormOutcome
  cancelledBeforeClone : Bool
  mkTemp : Except GoErr String
  clone : Option GoErr
  createBranch : Except GoErr String
  getwd : Except GoErr String
  deleteGithubDir : Option GoErr
  copyGithubDir : Option GoErr
  commitCi : Option GoErr
  copyTerraform : Option GoErr
  commitTerraform : Option GoErr
  hclCodemod : Option GoErr
  commitHcl : Option GoErr
  jsCodemod : Option GoErr
  commitJs : Option GoErr
  newResourceManager : Except GoErr Unit
  copyAllMaps : Except GoErr (List String)
  commitResources : Option GoErr
  moveToSub : Option GoErr
  commitMove : Option GoErr
  repoCreate : Option GoErr
  setRemote : Option GoErr
  credsForm : FormOutcome
  setSecretKeyId : Option GoErr
  setSecretAccessKey : Option GoErr
  setSecretRegion : Option GoErr
  setVarRedis : Option GoErr
  setVarBucket : Option GoErr
  enableActions : Option GoErr
  pushMain : Option GoErr
  deleteTimestampBranch : Option GoErr
  deleteLocalMain : Option GoErr
  fetchMain : Option GoErr
  checkoutTrackMain : Option GoErr
  deriving DecidableEq

/-- Provider fields and observable events of one `PrepareWithContext` run. -/
structure PrepSt where
  tempDir : Option String := none
  activeBranch : Option String := none
  cancelledFlag : Bool := false
  tempDirCreated : Bool := false
  cloneStarted : Bool := false
  cleanupCalled : Bool := false
  cleanupSawBranch : Bool := false
  cleanupSawTempDir : Bool := false
  deriving DecidableEq

/-- Result of a run: the returned error (or success) plus the final state. -/
abbrev PrepRes := Except GoErr Unit × PrepSt

/-- Embedding of `cleanup` (aws.go:1003-1025): records that cleanup ran and
whether it saw an active branch (checkout main + delete branch) and a temp
directory (remove) to operate on; its own failures are only warnings. -/
def cleanupGo (st : PrepSt) : PrepSt :=
  { st with
      cleanupCalled := true
      cleanupSawBranch := st.activeBranch.isSome
      cleanupSawTempDir := st.tempDir.isSome }

/-- The Go pattern `cleanup(p); return err`. -/
def failWithCleanup (e : GoErr) (st : PrepSt) : PrepRes := (.error e, cleanupGo st)

/-- One step whose failure triggers `cleanup(p); return err`. -/
def stepCleanup (x : Option GoErr) (st : PrepSt) (k : PrepSt → PrepRes) : PrepRes :=
  match x with
  | some e => failWithCleanup e st
  | none => k st

/-- One step whose failure triggers cleanup and returns a wrapped error
(the two codemod invocations, aws.go:722 and 740). -/
def stepCleanupWrap (x : Option GoErr) (msg : String) (st : PrepSt)
    (k : PrepSt → PrepRes) : PrepRes :=
  match x with
  | some e => failWithCleanup (.wrapped msg e) st
  | none => k st

/-- One `Except`-valued step whose failure triggers `cleanup(p); return err`
(resource-manager construction and `CopyAllMappings`). -/
def stepCleanupE {A : Type} (x : Except GoErr A) (st : PrepSt)
    (k : PrepSt → PrepRes) : PrepRes :=
  match x with
  | .error e => failWithCleanup e st
  | .ok _ => k st

/-- The sentinel `ui.ErrFormCancelled` as a `GoErr`. -/
def errFormCancelledGo : GoErr := .msgErr "operation cancelled by user"

/-- The credentials form step (aws.go:842-851): cancellation sets the flag,
cleans up and returns the sentinel; any other failure cleans up and returns
the error. -/
def stepCredsForm (x : FormOutcome) (st : PrepSt) (k : PrepSt → PrepRes) : PrepRes :=
  match x with
  | .cancelled => failWithCleanup errFormCancelledGo { st with cancelledFlag := true }
  | .failed e => failWithCleanup e st
  | .ok => k st

/-- Steps of `PrepareWithContext` from the first filesystem step after the
working branch exists (aws.go:674 onwards): every failure branch calls
`cleanup(p)` before returning, the two warning-only branch deletions cannot
fail the run, and the success path clears `activeBranch` before the final
cleanup. -/
def prepareSteps (env : PrepEnv) (st : PrepSt) : PrepRes :=
  stepCleanup env.deleteGithubDir st fun st =>
  stepCleanup env.copyGithubDir st fun st =>
  stepCleanup env.commitCi st fun st =>
  stepCleanup env.copyTerraform st fun st =>
  stepCleanup env.commitTerraform st fun st =>
  stepCleanupWrap env.hclCodemod "failed to apply HCL codemod" st fun st =>
  stepCleanup env.commitHcl st fun st =>
  stepCleanupWrap env.jsCodemod
    "preparation succeeded, but failed to apply next-config codemod" st fun st =>
  stepCleanup env.commitJs st fun st =>
  stepCleanupE env.newResourceManager st fun st =>
  stepCleanupE env.copyAllMaps st fun st =>
  stepCleanup env.commitResources st fun st =>
  stepCleanup env.moveToSub st fun st =>
  stepCleanup env.commitMove st fun st =>
  stepCleanup env.repoCreate st fun st =>
  stepCleanup env.setRemote st fun st =>
  stepCredsForm env.credsForm st fun st =>
  stepCleanup env.setSecretKeyId st fun st =>
  stepCleanup env.setSecretAccessKey st fun st =>
  stepCleanup env.setSecretRegion st fun st =>
  stepCleanup env.setVarRedis st fun st =>
  stepCleanup env.setVarBucket st fun st =>
  stepCleanup env.enableActions st fun st =>
  stepCleanup env.pushMain st fun st =>
  stepCleanup env.fetchMain st fun st =>
  stepCleanup env.checkoutTrackMain st fun st =>
  (.ok (), cleanupGo { st with activeBranch := none })

/-- Steps of `PrepareWithContext` from the clone on (aws.go:635-672):
clone and branch-creation failures clean up; an `os.Getwd` failure
(aws.go:669-672) returns its error directly, without cleanup. -/
def prepareFromClone (env : PrepEnv) (st0 : PrepSt) : PrepRes :=
  let st := { st0 with cloneStarted := true }
  match env.clone with
  | some e => failWithCleanup e st
  | none =>
    match env.createBranch with
    | .error e => failWithCleanup e st
    | .ok bn =>
      let st := { st with activeBranch := some bn }
      match env.getwd with
      | .error e => (.error e, st)
      | .ok _ => prepareSteps env st

/-- Embedding of `PrepareWithContext` (aws.go:504-973): the start checkpoint,
organization query, configuration form (cancellation sets the flag and
returns the sentinel), the pre-clone checkpoint, temp-dir creation, then the
clone and everything after it. -/
def prepareWithContext (env : PrepEnv) : PrepRes :=
  let st0 : PrepSt := {}
  if env.cancelledAtStart then (.error (.msgErr "operation cancelled by user"), st0)
  else
    match env.orgs with
    | .error e => (.error e, st0)
    | .ok orgs =>
      if orgs.length = 0 then (.error (.msgErr "no organizations found"), st0)
      else
        match env.configForm with
        | .cancelled => (.error errFormCancelledGo, { st0 with cancelledFlag := true })
        | .failed e => (.error e, st0)
        | .ok =>
          if env.cancelledBeforeClone then
            (.error (.msgErr "operation cancelled before cloning"), st0)
          else
            match env.mkTemp with
            | .error e => (.error e, st0)
            | .ok td =>
              prepareFromClone env { st0 with tempDir := some td, tempDirCreated := true }

/-- An environment in which every step succeeds. -/
def okPrepEnv : PrepEnv where
  cancelledAtStart := false
  orgs := .ok ["acme"]
  configForm := .ok
  cancelledBeforeClone := false
  mkTemp := .ok "/tmp/enterprise-boilerplate-1"
  clone := none
  createBranch := .ok "enterprise-aws-setup-1700000000"
  getwd := .ok "/repo"
  deleteGithubDir := none
  copyGithubDir := none
  commitCi := none
  copyTerraform := none
  commitTerraform := none
  hclCodemod := none
  commitHcl := none
  jsCodemod := none
  commitJs := none
  newResourceManager := .ok ()
  copyAllMaps := .ok []
  commitResources := none
  moveToSub := none
  commitMove := none
  repoCreate := none
  setRemote := none
  credsForm := .ok
  setSecretKeyId := none
  setSecretAccessKey := none
  setSecretRegion := none
  setVarRedis := none
  setVarBucket := none
  enableActions := none
  pushMain := none
  deleteTimestampBranch := none
  deleteLocalMain := none
  fetchMain := none
  checkoutTrackMain := none

/-- C1: evaluation of the code at the failing input. When every step up to
and including branch creation succeeds and `os.Getwd` then fails, the routine
returns the `Getwd` error with the temp directory created and the working
branch still active, but `cleanup` is never invoked — contrary to the claim
that every step failure after temp-dir creation routes through cleanup. A
clone failure, by contrast, does invoke cleanup. -/
theorem C1_getwd_failure_skips_cleanup :
    ((prepareWithContext { okPrepEnv with getwd := .error (.tag 42) }).1 =
        .error (.tag 42) ∧
      (prepareWithContext { okPrepEnv with getwd := .error (.tag 42) }).2.tempDirCreated
        = true ∧
      (prepareWithContext { okPrepEnv with getwd := .error (.tag 42) }).2.activeBranch =
        some "enterprise-aws-setup-1700000000" ∧
      (prepareWithContext { okPrepEnv with getwd := .error (.tag 42) }).2.cleanupCalled
        = false) ∧
    ((prepareWithContext { okPrepEnv with clone := some (.tag 41) }).1 =
        .error (.tag 41) ∧
      (prepareWithContext { okPrepEnv with clone := some (.tag 41) }).2.cleanupCalled
        = true ∧
      (prepareWithContext { okPrepEnv with clone := some (.tag 41) }).2.cleanupSawTempDir
        = true) := by
  decide

/-- C5: whenever the run reaches the pre-clone checkpoint (not cancelled at
the start, organizations resolved and nonempty, configuration form completed)
with the shared context already cancelled, `PrepareWithContext` returns an
error before invoking the clone and never creates a temporary directory. -/
theorem C5_cancelled_before_clone (env : PrepEnv)
    (h1 : env.cancelledAtStart = false)
    (h2 : ∃ l, env.orgs = .ok l ∧ l.length ≠ 0)
    (h3 : env.configForm = .ok)
    (h4 : env.cancelledBeforeClone = true) :
    (prepareWithContext env).1 = .error (.msgErr "operation cancelled before cloning") ∧
    (prepareWithContext env).2.tempDirCreated = false ∧
    (prepareWithContext env).2.cloneStarted = false ∧
    (prepareWithContext env).2.tempDir = none := by
  obtain ⟨l, hl, hlen⟩ := h2
  unfold prepareWithContext
  rw [h1, hl, h3, h4]
  simp [hlen]

/-- Closed instantiation of `C5_cancelled_before_clone` on the all-success
environment with the context cancelled at the pre-clone checkpoint. -/
theorem C5_witness :
    (prepareWithContext { okPrepEnv with cancelledBeforeClone := true }).1 =
      .error (.msgErr "operation cancelled before cloning") ∧
    (prepareWithContext { okPrepEnv with cancelledBeforeClone := true }).2.tempDirCreated
      = false ∧
    (prepareWithContext { okPrepEnv with cancelledBeforeClone := true }).2.cloneStarted
      = false ∧
    (prepareWithContext { okPrepEnv with cancelledBeforeClone := true }).2.tempDir =
      none :=
  C5_cancelled_before_clone { okPrepEnv with cancelledBeforeClone := true }
    rfl ⟨["acme"], rfl, by decide⟩ rfl rfl

end EnterpriseCli
